import Mathlib

/-!
Verification of the Schedule Acquisition Engine of `fetch_dtv_schedule.py`
(directv-stream-epg).  The Python functions are shallowly embedded as Lean
definitions; JSON values are modelled by the inductive `JVal`, Python dicts by
association lists (first binding wins on lookup, as dict keys are unique in all
values the program builds or parses).
-/

namespace DtvSchedule

/-- Model of a JSON value (the decoded payloads the engine manipulates). -/
inductive JVal : Type where
  | null : JVal
  | bool (b : Bool) : JVal
  | num (n : Int) : JVal
  | str (s : String) : JVal
  | arr (xs : List JVal) : JVal
  | obj (fields : List (String × JVal)) : JVal

/-- A decoded top-level payload: a JSON object, i.e. a Python dict. -/
abbrev Payload : Type := List (String × JVal)

/-- Python `d.get(k)`: first binding of key `k` (dict keys are unique, so first = only). -/
def dictGet (fields : List (String × JVal)) (k : String) : Option JVal :=
  (fields.find? (fun kv => kv.1 = k)).map (fun kv => kv.2)

/-- Python `d[k] = v`: replace the binding of `k` in place, or append a new one. -/
def dictSet : List (String × JVal) → String → JVal → List (String × JVal)
  | [], k, v => [(k, v)]
  | (k0, v0) :: rest, k, v =>
      if k0 = k then (k0, v) :: rest else (k0, v0) :: dictSet rest k v

/-- Function `schedules_list` (line 250): `payload.get("schedules")` if it is a list, else `[]`. -/
def schedules_list (payload : Payload) : List JVal :=
  match dictGet payload "schedules" with
  | some (JVal.arr xs) => xs
  | _ => []

/-- The `"channelId"` of a schedule entry, when the entry is a dict and the value
is a string.  (`validate_multi_channel` builds `got_ids` from `s.get("channelId")`
of the dict entries, discarding `None`; non-string values can never compare equal
to a requested identifier string, so only string values matter for the overlap.) -/
def entryChannelIdStr : JVal → Option String
  | JVal.obj fields =>
      match dictGet fields "channelId" with
      | some (JVal.str s) => some s
      | _ => none
  | _ => none

/-- The string-valued `channelId`s present in the payload entries (line 260). -/
def gotChannelIds (scheds : List JVal) : List String :=
  scheds.filterMap entryChannelIdStr

/-- Python `overlap = len(req.intersection(got_ids))` (line 262): the number of distinct
requested identifiers that occur among the returned `channelId`s. -/
def overlapCount (requested : List String) (scheds : List JVal) : Nat :=
  (requested.dedup.filter (fun c => (gotChannelIds scheds).contains c)).length

/-- Function `validate_multi_channel` (lines 255-266), with `min_ratio` as an exact rational. -/
def validate_multi_channel (payload : Payload) (requested_channel_ids : List String)
    (min_ratio : ℚ) : Bool :=
  let scheds := schedules_list payload
  let reqCard := requested_channel_ids.dedup.length
  if reqCard = 0 then
    true
  else
    let overlap := overlapCount requested_channel_ids scheds
    if overlap = 0 ∧ reqCard ≤ scheds.length then
      true
    else
      decide (min_ratio ≤ (overlap : ℚ) / ((max 1 reqCard : ℕ) : ℚ))

/-- The entry synthesized for a channel whose payload had no schedule entries
(line 276): `{"scheduleChannelId": channel_id, "contents": []}`. -/
def synthEntry (channel_id : String) : JVal :=
  JVal.obj [("scheduleChannelId", JVal.str channel_id), ("contents", JVal.arr [])]

/-- The schedules accumulated by the loop of `combine_single_channel_payloads`
(lines 271-276): each channel contributes its entries, or one synthesized entry. -/
def combinedSchedules : List (String × Payload) → List JVal
  | [] => []
  | (channel_id, payload) :: rest =>
      let scheds := schedules_list payload
      (if scheds.isEmpty then [synthEntry channel_id] else scheds)
        ++ combinedSchedules rest

/-- Function `combine_single_channel_payloads` (lines 269-278). -/
def combine_single_channel_payloads (channel_payloads : List (String × Payload)) : Payload :=
  dictSet [("schedules", JVal.arr (combinedSchedules channel_payloads))]
    "_combined" (JVal.bool true)

/-- Function `chunked` (lines 31-33): successive slices of length `n`.  (With `n = 0` the
source raises `ValueError`; that case is modelled separately in `mainOutcome`
and never reached here.) -/
def chunked {α : Type} (items : List α) (n : ℕ) : List (List α) :=
  if h : n = 0 ∨ items.isEmpty then []
  else items.take n :: chunked (items.drop n) n
termination_by items.length
decreasing_by
  push_neg at h
  have h1 : items.length ≠ 0 := by
    intro h0
    exact absurd (List.isEmpty_iff_length_eq_zero.mpr h0) (by simpa using h.2)
  simp only [List.length_drop]
  omega

theorem chunked_nil {α : Type} (n : ℕ) : chunked ([] : List α) n = [] := by
  rw [chunked]
  simp

theorem chunked_cons {α : Type} {items : List α} {n : ℕ}
    (hne : items ≠ []) (hn : n ≠ 0) :
    chunked items n = items.take n :: chunked (items.drop n) n := by
  rw [chunked]
  simp [hne, hn]

theorem chunked_eq_nil_iff {α : Type} {items : List α} {n : ℕ} (hn : n ≠ 0) :
    chunked items n = [] ↔ items = [] := by
  cases items with
  | nil => simp [chunked_nil]
  | cons a l =>
    rw [chunked_cons (List.cons_ne_nil a l) hn]
    simp

theorem chunked_join {α : Type} (items : List α) (n : ℕ) (hn : n ≠ 0) :
    (chunked items n).flatten = items := by
  rcases eq_or_ne items [] with he | he
  · subst he
    simp [chunked_nil]
  · rw [chunked_cons he hn]
    have ih := chunked_join (items.drop n) n hn
    simp [ih]
termination_by items.length
decreasing_by
  have h1 : 0 < items.length := List.length_pos.mpr he
  simp only [List.length_drop]
  omega

theorem chunked_length {α : Type} (items : List α) (n : ℕ) (hn : n ≠ 0) :
    (chunked items n).length = (items.length + n - 1) / n := by
  rcases eq_or_ne items [] with he | he
  · subst he
    have h0 : (n - 1) / n = 0 := Nat.div_eq_of_lt (by omega)
    simp [chunked_nil, h0]
  · rw [chunked_cons he hn]
    have ih := chunked_length (items.drop n) n hn
    have hpos : 0 < items.length := List.length_pos.mpr he
    simp only [List.length_cons, ih, List.length_drop]
    rcases le_or_lt n items.length with hle | hlt
    · have hsplit : items.length + n - 1 = (items.length - n + n - 1) + n := by omega
      rw [hsplit, Nat.add_div_right _ (Nat.pos_of_ne_zero hn)]
    · have h2 : items.length - n = 0 := by omega
      have h3 : (0 + n - 1) / n = 0 := Nat.div_eq_of_lt (by omega)
      have h4 : (items.length + n - 1) / n = 1 :=
        Nat.div_eq_of_lt_le (by omega) (by omega)
      rw [h2, h3, h4]
termination_by items.length
decreasing_by
  have h1 : 0 < items.length := List.length_pos.mpr he
  simp only [List.length_drop]
  omega

theorem chunked_size_le {α : Type} (items : List α) (n : ℕ) (hn : n ≠ 0) :
    ∀ c ∈ chunked items n, c.length ≤ n ∧ 0 < c.length := by
  rcases eq_or_ne items [] with he | he
  · subst he
    simp [chunked_nil]
  · rw [chunked_cons he hn]
    intro c hc
    rcases List.mem_cons.mp hc with hc | hc
    · have hpos : 0 < items.length := List.length_pos.mpr he
      subst hc
      simp only [List.length_take]
      omega
    · exact chunked_size_le (items.drop n) n hn c hc
termination_by items.length
decreasing_by
  have h1 : 0 < items.length := List.length_pos.mpr he
  simp only [List.length_drop]
  omega

theorem chunked_dropLast_size {α : Type} (items : List α) (n : ℕ) (hn : n ≠ 0) :
    ∀ c ∈ (chunked items n).dropLast, c.length = n := by
  rcases eq_or_ne items [] with he | he
  · subst he
    simp [chunked_nil]
  · rw [chunked_cons he hn]
    rcases eq_or_ne (items.drop n) [] with hd | hd
    · rw [hd, chunked_nil]
      simp
    · have hrest : chunked (items.drop n) n ≠ [] :=
        fun h0 => hd ((chunked_eq_nil_iff hn).mp h0)
      intro c hc
      rcases hlist : chunked (items.drop n) n with _ | ⟨b, l⟩
      · exact absurd hlist hrest
      · rw [hlist] at hc
        rw [List.dropLast_cons₂] at hc
        rcases List.mem_cons.mp hc with hc | hc
        · have hlen : n < items.length := by
            by_contra hcon
            push_neg at hcon
            exact hd (List.drop_eq_nil_of_le hcon)
          subst hc
          simp only [List.length_take]
          omega
        · have hmem := chunked_dropLast_size (items.drop n) n hn c
          rw [hlist] at hmem
          exact hmem hc
termination_by items.length
decreasing_by
  have h1 : 0 < items.length := List.length_pos.mpr he
  simp only [List.length_drop]
  omega

/-- The rational ceiling of `N / B` agrees with the natural-number formula
`(N + B - 1) / B` when `B > 0`. -/
theorem ceil_nat_div (N B : ℕ) (hB : 0 < B) :
    ⌈(N : ℚ) / (B : ℚ)⌉ = ((N + B - 1) / B : ℕ) := by
  have hBQ : (0 : ℚ) < (B : ℚ) := by exact_mod_cast hB
  have hdm := Nat.div_add_mod (N + B - 1) B
  have hmod : (N + B - 1) % B < B := Nat.mod_lt _ hB
  have hq1 : N ≤ B * ((N + B - 1) / B) := by omega
  have hq2 : B * ((N + B - 1) / B) < N + B := by omega
  have hc1 : (N : ℚ) ≤ (B : ℚ) * (((N + B - 1) / B : ℕ) : ℚ) := by exact_mod_cast hq1
  have hc2 : (B : ℚ) * (((N + B - 1) / B : ℕ) : ℚ) < (N : ℚ) + (B : ℚ) := by
    exact_mod_cast hq2
  rw [Int.ceil_eq_iff]
  simp only [Int.cast_natCast]
  constructor
  · rw [lt_div_iff hBQ, sub_mul, one_mul]
    linarith
  · rw [div_le_iff hBQ, mul_comm]
    exact hc1

/-- Claim C6: for every channel-identifier sequence of length `N` and max batch
size `B > 0`, `chunked` returns exactly `ceil(N / B)` batches whose in-order
concatenation is exactly the input sequence (no identifier duplicated or
missing), and every batch has size exactly `B` except possibly the last. -/
theorem chunked_partition {α : Type} (items : List α) (B : ℕ) (hB : 0 < B) :
    ((chunked items B).length : ℤ) = ⌈(items.length : ℚ) / (B : ℚ)⌉ ∧
    (chunked items B).flatten = items ∧
    (∀ c ∈ (chunked items B).dropLast, c.length = B) ∧
    (∀ c ∈ chunked items B, c.length ≤ B) := by
  have hn : B ≠ 0 := Nat.pos_iff_ne_zero.mp hB
  refine ⟨?_, chunked_join items B hn, chunked_dropLast_size items B hn,
    fun c hc => (chunked_size_le items B hn c hc).1⟩
  rw [chunked_length items B hn, ceil_nat_div items.length B hB]

/-- Witness for C6: five identifiers in batches of two give `ceil(5/2) = 3`
batches that concatenate back to the input. -/
theorem chunked_partition_witness :
    ((chunked ["a", "b", "c", "d", "e"] 2).length : ℤ)
        = ⌈((["a", "b", "c", "d", "e"] : List String).length : ℚ) / (2 : ℚ)⌉ ∧
    (chunked ["a", "b", "c", "d", "e"] 2).flatten = ["a", "b", "c", "d", "e"] :=
  ⟨(chunked_partition ["a", "b", "c", "d", "e"] 2 (by decide)).1,
   (chunked_partition ["a", "b", "c", "d", "e"] 2 (by decide)).2.1⟩

/-- Claim C9: with an empty requested channel-identifier list,
`validate_multi_channel` accepts any payload unconditionally (the `if not req`
guard at line 258 returns `True`). -/
theorem validate_empty_request (payload : Payload) (min_ratio : ℚ) :
    validate_multi_channel payload [] min_ratio = true :=
  rfl

/-- The field of a schedule entry under key `k`, when the entry is a dict. -/
def entryField (e : JVal) (k : String) : Option JVal :=
  match e with
  | JVal.obj fields => dictGet fields k
  | _ => none

/-- Claim C10: `combine_single_channel_payloads` sets `"_combined"` to `true`;
a channel whose payload yields no schedule entries contributes exactly one
synthesized entry, whose identifier sits under the key `"scheduleChannelId"`
with an empty `"contents"` list — and which has no `"channelId"` key, the key
`validate_multi_channel` reads from real entries. -/
theorem combine_tags_and_synth (channel_payloads : List (String × Payload)) :
    dictGet (combine_single_channel_payloads channel_payloads) "_combined"
        = some (JVal.bool true) ∧
    schedules_list (combine_single_channel_payloads channel_payloads)
        = combinedSchedules channel_payloads ∧
    (∀ (channel_id : String) (payload : Payload)
        (rest : List (String × Payload)),
      combinedSchedules ((channel_id, payload) :: rest)
        = (if (schedules_list payload).isEmpty then [synthEntry channel_id]
           else schedules_list payload) ++ combinedSchedules rest) ∧
    (∀ channel_id : String,
      entryField (synthEntry channel_id) "scheduleChannelId"
          = some (JVal.str channel_id) ∧
      entryField (synthEntry channel_id) "contents" = some (JVal.arr []) ∧
      entryField (synthEntry channel_id) "channelId" = none ∧
      entryChannelIdStr (synthEntry channel_id) = none) :=
  ⟨rfl, rfl, fun _ _ _ => rfl, fun _ => ⟨rfl, rfl, rfl, rfl⟩⟩

/-- Claim C1: for a non-empty (deduplicated, as every `ChannelBatch` is)
requested batch, `validate_multi_channel` accepts iff either the payload has at
least as many schedule entries as the batch with zero identifier overlap, or
the overlap ratio `|requested ∩ returned| / |requested|` is at least
`min_ratio`. -/
theorem validate_multi_channel_iff (payload : Payload) (requested : List String)
    (min_ratio : ℚ) (hnd : requested.Nodup) (hne : requested ≠ []) :
    validate_multi_channel payload requested min_ratio = true ↔
      ((requested.length ≤ (schedules_list payload).length ∧
        overlapCount requested (schedules_list payload) = 0) ∨
       min_ratio ≤ (overlapCount requested (schedules_list payload) : ℚ)
          / (requested.length : ℚ)) := by
  have hded : requested.dedup = requested := List.Nodup.dedup hnd
  have hpos : 0 < requested.length := List.length_pos.mpr hne
  have hmax : max 1 requested.length = requested.length :=
    Nat.max_eq_right (by omega)
  unfold validate_multi_channel
  rw [hded]
  dsimp only
  split_ifs with h0 h1
  · omega
  · simp only [true_iff]
    exact Or.inl ⟨h1.2, h1.1⟩
  · rw [decide_eq_true_iff, hmax]
    constructor
    · exact fun h => Or.inr h
    · intro h
      rcases h with ⟨hlen, hov⟩ | h
      · exact absurd ⟨hov, hlen⟩ h1
      · exact h

/-- A requested batch of ten channel identifiers. -/
def reqTen : List String :=
  ["c0", "c1", "c2", "c3", "c4", "c5", "c6", "c7", "c8", "c9"]

/-- A payload returning schedule entries for exactly eight of `reqTen`. -/
def payEight : Payload :=
  [("schedules", JVal.arr ((reqTen.take 8).map
    (fun c => JVal.obj [("channelId", JVal.str c)])))]

/-- A payload returning schedule entries for exactly seven of `reqTen`. -/
def paySeven : Payload :=
  [("schedules", JVal.arr ((reqTen.take 7).map
    (fun c => JVal.obj [("channelId", JVal.str c)])))]

/-- Witness for C1 (the boundary example of the claim): a batch of 10 with 8
returned identifiers (ratio 0.8 ≥ 0.75) is accepted, with 7 (ratio 0.7) it is
rejected. -/
theorem validate_multi_channel_boundary :
    validate_multi_channel payEight reqTen (3 / 4) = true ∧
    validate_multi_channel paySeven reqTen (3 / 4) = false := by
  constructor
  · apply (validate_multi_channel_iff payEight reqTen (3 / 4)
      (by decide) (by decide)).mpr
    apply Or.inr
    have hov : overlapCount reqTen (schedules_list payEight) = 8 := by decide
    have hlen : reqTen.length = 10 := by decide
    rw [hov, hlen]
    norm_num
  · have h := validate_multi_channel_iff paySeven reqTen (3 / 4)
      (by decide) (by decide)
    rw [Bool.eq_false_iff, Ne, h]
    push_neg
    constructor
    · decide
    · have hov : overlapCount reqTen (schedules_list paySeven) = 7 := by decide
      have hlen : reqTen.length = 10 := by decide
      rw [hov, hlen]
      norm_num

/-- A failure of one attempt of `_get_json`: the transport raised (timeout,
connection reset), the response had status ≥ 400 (line 235 raises), or the
body of a sub-400 response failed to decode as JSON (`r.json()` raises). -/
inductive ReqErr : Type where
  | transport : ReqErr
  | httpStatus (code : ℕ) : ReqErr
  | decodeFail : ReqErr
deriving DecidableEq, Repr

/-- What the network does on one attempt: raise in `s.get`, or return a
response with a status code and a body that either decodes to JSON or not. -/
inductive HttpStep : Type where
  | exn : HttpStep
  | resp (status : ℕ) (body : Option Payload) : HttpStep

/-- The outcome of the `try` block of `_get_json` (lines 223-238) for one
attempt: `HTTP status >= 400` raises, otherwise the decoded JSON is returned
(or the decode failure raises). -/
def stepResult (step : HttpStep) : Except ReqErr Payload :=
  match step with
  | HttpStep.exn => Except.error ReqErr.transport
  | HttpStep.resp status body =>
      if 400 ≤ status then Except.error (ReqErr.httpStatus status)
      else
        match body with
        | some j => Except.ok j
        | none => Except.error ReqErr.decodeFail

/-- Observable behaviour of one `_get_json` call: its result, how many HTTP
attempts it made, and the sleeps it performed (in seconds, in order). -/
structure GetResult : Type where
  result : Except ReqErr Payload
  attemptsMade : ℕ
  delays : List ℚ

/-- The retry loop of `_get_json` (lines 222-246), with `remaining` the number
of attempts still allowed after the current one (`retries - attempt`): on any
exception, if `attempt >= retries` the loop breaks and re-raises the last
error, else it sleeps `retry_backoff * 2 ** attempt` and retries. -/
def getJsonLoop (transport : ℕ → HttpStep) (retry_backoff : ℚ) :
    (attempt : ℕ) → (remaining : ℕ) → GetResult
  | attempt, 0 =>
      match stepResult (transport attempt) with
      | Except.ok j => ⟨Except.ok j, 1, []⟩
      | Except.error e => ⟨Except.error e, 1, []⟩
  | attempt, r + 1 =>
      match stepResult (transport attempt) with
      | Except.ok j => ⟨Except.ok j, 1, []⟩
      | Except.error _ =>
          let rest := getJsonLoop transport retry_backoff (attempt + 1) r
          ⟨rest.result, rest.attemptsMade + 1,
            retry_backoff * 2 ^ attempt :: rest.delays⟩

/-- Function `_get_json` (lines 212-247): `for attempt in range(retries + 1)`. -/
def get_json (transport : ℕ → HttpStep) (retries : ℕ) (retry_backoff : ℚ) :
    GetResult :=
  getJsonLoop transport retry_backoff 0 retries

theorem getJsonLoop_allFail (transport : ℕ → HttpStep) (retry_backoff : ℚ) :
    ∀ (remaining attempt : ℕ),
      (∀ i, i ≤ attempt + remaining → ∃ e, stepResult (transport i) = Except.error e) →
      getJsonLoop transport retry_backoff attempt remaining =
        ⟨stepResult (transport (attempt + remaining)), remaining + 1,
          (List.range remaining).map (fun k => retry_backoff * 2 ^ (attempt + k))⟩ := by
  intro remaining
  induction remaining with
  | zero =>
    intro attempt hfail
    obtain ⟨e, he⟩ := hfail attempt (by omega)
    simp [getJsonLoop, he]
  | succ r ih =>
    intro attempt hfail
    obtain ⟨e, he⟩ := hfail attempt (by omega)
    have hrest := ih (attempt + 1) (fun i hi => hfail i (by omega))
    simp only [getJsonLoop, he, hrest, GetResult.mk.injEq]
    refine ⟨by rw [show attempt + 1 + r = attempt + (r + 1) from by omega], by trivial, ?_⟩
    rw [List.range_succ_eq_map]
    simp only [List.map_cons, List.map_map, List.cons.injEq]
    refine ⟨by rw [Nat.add_zero], ?_⟩
    apply List.map_congr_left
    intro k _
    simp only [Function.comp_apply]
    rw [show attempt + 1 + k = attempt + Nat.succ k from by omega]

/-- The behaviour of `_get_json` when every attempt fails, whatever the kind of
each failure: the result is the last error, `retries + 1` attempts are made,
and the `retries` sleeps are `retry_backoff * 2 ^ i` for `i < retries`. -/
theorem get_json_allFail (transport : ℕ → HttpStep) (retries : ℕ)
    (retry_backoff : ℚ)
    (hfail : ∀ i, i ≤ retries → ∃ e, stepResult (transport i) = Except.error e) :
    get_json transport retries retry_backoff =
      ⟨stepResult (transport retries), retries + 1,
        (List.range retries).map (fun k => retry_backoff * 2 ^ k)⟩ := by
  have h := getJsonLoop_allFail transport retry_backoff retries 0
    (fun i hi => hfail i (by omega))
  rw [get_json, h]
  simp

/-- Counterexample for C2: a 401 response — which the claim lists as
non-retryable, to fail immediately with no retry attempt — is in fact retried:
with `retries = 1` the code performs 2 attempts and sleeps once.  The `except`
at line 239 catches every failure alike. -/
theorem retry_401_counterexample :
    (get_json (fun _ => HttpStep.resp 401 none) 1 1).attemptsMade = 2 ∧
    (get_json (fun _ => HttpStep.resp 401 none) 1 1).delays = [1] ∧
    (get_json (fun _ => HttpStep.resp 401 none) 1 1).result
        = Except.error (ReqErr.httpStatus 401) := by
  refine ⟨rfl, ?_, rfl⟩
  show [(1 : ℚ) * 2 ^ 0] = [1]
  norm_num

/-- Claim C2 (amended): `_get_json` distinguishes no failure classes at all —
any HTTP status ≥ 400 (401/403/404 included), any transport failure and any
JSON-decode failure are retried identically, up to `retries` extra attempts;
only after `retries + 1` failed attempts is the failure reported. -/
theorem get_json_retries_all_failures (transport : ℕ → HttpStep) (retries : ℕ)
    (retry_backoff : ℚ)
    (hfail : ∀ i, i ≤ retries → ∃ e, stepResult (transport i) = Except.error e) :
    (get_json transport retries retry_backoff).attemptsMade = retries + 1 ∧
    (get_json transport retries retry_backoff).delays.length = retries ∧
    ∃ e, (get_json transport retries retry_backoff).result = Except.error e := by
  rw [get_json_allFail transport retries retry_backoff hfail]
  refine ⟨rfl, by simp, ?_⟩
  obtain ⟨e, he⟩ := hfail retries (le_refl retries)
  exact ⟨e, he⟩

/-- Witness for C2 (amended): three attempts are made against a server that
always answers 404. -/
theorem get_json_retries_all_failures_witness :
    (get_json (fun _ => HttpStep.resp 404 none) 2 1).attemptsMade = 3 :=
  (get_json_retries_all_failures (fun _ => HttpStep.resp 404 none) 2 1
    (fun _ _ => ⟨ReqErr.httpStatus 404, rfl⟩)).1

/-- Counterexample for C3: the code caps nothing and draws no jitter.  With
`retries = 6`, `base = 1.0 s` and a persistent 503, the sixth delay is exactly
32 s, above the largest value `min(cap, base * 2^(attempt-1)) + 0.25 * delay`
allows for the configured `cap = 20 s`, namely `20 * 1.25 = 25 s`. -/
theorem backoff_uncapped_counterexample :
    (get_json (fun _ => HttpStep.resp 503 none) 6 1).delays
        = [1, 2, 4, 8, 16, 32] ∧
    ¬ ((32 : ℚ) ≤ 20 * (1 + 1 / 4)) := by
  constructor
  · rw [get_json_allFail (fun _ => HttpStep.resp 503 none) 6 1
      (fun _ _ => ⟨ReqErr.httpStatus 503, rfl⟩)]
    show (List.range 6).map (fun k => (1 : ℚ) * 2 ^ k) = [1, 2, 4, 8, 16, 32]
    norm_num [List.range_succ]
  · norm_num

/-- Claim C3 (amended): the delay before attempt `a + 1` is exactly
`retry_backoff * 2 ^ (a - 1)` (1-based `a`), with no cap and no jitter; sleeps
occur only between attempts — `retries` sleeps for `retries + 1` attempts, none
after the last — and for positive backoff the delays are strictly increasing
(deterministically, not merely in expectation). -/
theorem get_json_backoff_exact (transport : ℕ → HttpStep) (retries : ℕ)
    (retry_backoff : ℚ)
    (hfail : ∀ i, i ≤ retries → ∃ e, stepResult (transport i) = Except.error e) :
    (get_json transport retries retry_backoff).delays
        = (List.range retries).map (fun k => retry_backoff * 2 ^ k) ∧
    (get_json transport retries retry_backoff).attemptsMade = retries + 1 ∧
    (0 < retry_backoff →
      (get_json transport retries retry_backoff).delays.Pairwise (· < ·)) := by
  rw [get_json_allFail transport retries retry_backoff hfail]
  refine ⟨rfl, rfl, fun hb => ?_⟩
  refine List.Pairwise.map _ ?_ (List.pairwise_lt_range retries)
  intro a b hab
  exact mul_lt_mul_of_pos_left (pow_lt_pow_right₀ one_lt_two hab) hb

/-- Witness for C3 (amended): a persistent transport failure with
`retries = 2`, `base = 1` yields the delay list `[1, 2]` and 3 attempts. -/
theorem get_json_backoff_exact_witness :
    (get_json (fun _ => HttpStep.exn) 2 1).delays
        = (List.range 2).map (fun k => (1 : ℚ) * 2 ^ k) ∧
    (get_json (fun _ => HttpStep.exn) 2 1).attemptsMade = 3 :=
  ⟨(get_json_backoff_exact (fun _ => HttpStep.exn) 2 1
      (fun _ _ => ⟨ReqErr.transport, rfl⟩)).1,
   (get_json_backoff_exact (fun _ => HttpStep.exn) 2 1
      (fun _ _ => ⟨ReqErr.transport, rfl⟩)).2.1⟩

/-- Python `n_windows = int(math.ceil((end - start) / window))` (line 360), with
`S = end - start` and `W` the window size; a non-positive count makes the
`range` loop empty, which `Int.toNat` models. -/
def n_windows (S W : ℚ) : ℕ :=
  (⌈S / W⌉).toNat

/-- Python `w_start = start + wi * window` (line 393). -/
def windowStart (start W : ℚ) (wi : ℕ) : ℚ :=
  start + wi * W

/-- Python `w_end = min(end, w_start + window)` (line 394), with `end = start + S`. -/
def windowEnd (start S W : ℚ) (wi : ℕ) : ℚ :=
  min (start + S) (windowStart start W wi + W)

/-- The windows visited by the loop `for wi in range(n_windows)` (line 392). -/
def windows (start S W : ℚ) : List (ℚ × ℚ) :=
  (List.range (n_windows S W)).map
    (fun wi => (windowStart start W wi, windowEnd start S W wi))

theorem n_windows_cast (S W : ℚ) (hS : 0 < S) (hW : 0 < W) :
    ((n_windows S W : ℕ) : ℤ) = ⌈S / W⌉ := by
  apply Int.toNat_of_nonneg
  have h : (0 : ℤ) < ⌈S / W⌉ := Int.lt_ceil.mpr (by
    push_cast
    exact div_pos hS hW)
  omega

theorem windowStart_lt_span (S W : ℚ) (hS : 0 < S) (hW : 0 < W) :
    ∀ i : ℕ, i < n_windows S W → (i : ℚ) * W < S := by
  intro i hi
  have h1 : ((i : ℕ) : ℤ) < ⌈S / W⌉ := by
    rw [← n_windows_cast S W hS hW]
    exact_mod_cast hi
  have h2 : ((i : ℕ) : ℚ) < S / W := by
    have h3 := Int.lt_ceil.mp h1
    exact_mod_cast h3
  exact (lt_div_iff hW).mp h2

theorem span_le_n_windows_mul (S W : ℚ) (hS : 0 < S) (hW : 0 < W) :
    S ≤ (n_windows S W : ℚ) * W := by
  have h1 : S / W ≤ ((n_windows S W : ℕ) : ℚ) := by
    have h2 := Int.le_ceil (S / W)
    rw [← n_windows_cast S W hS hW] at h2
    exact_mod_cast h2
  exact (div_le_iff hW).mp h1

/-- Claim C5: for every positive span `S` and window size `W`, the planner
produces exactly `ceil(S / W)` windows that start at the acquisition start
instant, are contiguous and non-overlapping, of size exactly `W` except for a
possibly-shorter (but non-empty) last one, and whose union is exactly
`[start, start + S)`. -/
theorem windows_partition (start S W : ℚ) (hS : 0 < S) (hW : 0 < W) :
    ((windows start S W).length : ℤ) = ⌈S / W⌉ ∧
    windowStart start W 0 = start ∧
    (∀ i, i + 1 < n_windows S W →
      windowEnd start S W i = windowStart start W (i + 1)) ∧
    (∀ i, i + 1 < n_windows S W →
      windowEnd start S W i - windowStart start W i = W) ∧
    (∀ i, i < n_windows S W →
      0 < windowEnd start S W i - windowStart start W i ∧
      windowEnd start S W i - windowStart start W i ≤ W) ∧
    (∀ t : ℚ, (start ≤ t ∧ t < start + S) ↔
      ∃ i, i < n_windows S W ∧
        windowStart start W i ≤ t ∧ t < windowEnd start S W i) ∧
    (∀ (t : ℚ) (i j : ℕ), i < n_windows S W → j < n_windows S W →
      windowStart start W i ≤ t → t < windowEnd start S W i →
      windowStart start W j ≤ t → t < windowEnd start S W j → i = j) := by
  have hlt := windowStart_lt_span S W hS hW
  have hinside : ∀ i : ℕ, i < n_windows S W →
      windowStart start W i < start + S := by
    intro i hi
    have := hlt i hi
    simp only [windowStart]
    linarith
  refine ⟨?_, ?_, ?_, ?_, ?_, ?_, ?_⟩
  · rw [windows, List.length_map, List.length_range]
    exact n_windows_cast S W hS hW
  · simp [windowStart]
  · intro i hi
    have hstep : ((i : ℚ) + 1) * W < S := by
      have := hlt (i + 1) hi
      push_cast at this
      linarith
    rw [windowEnd, min_eq_right]
    · simp only [windowStart]
      push_cast
      ring
    · simp only [windowStart]
      nlinarith
  · intro i hi
    have hc := by
      exact hlt (i + 1) hi
    have hstep : ((i : ℚ) + 1) * W < S := by
      push_cast at hc
      linarith
    rw [windowEnd, min_eq_right]
    · simp only [windowStart]
      ring
    · simp only [windowStart]
      nlinarith
  · intro i hi
    constructor
    · have h1 := hinside i hi
      rw [windowEnd]
      rcases le_total (start + S) (windowStart start W i + W) with hm | hm
      · rw [min_eq_left hm]
        linarith
      · rw [min_eq_right hm]
        linarith
    · rw [windowEnd]
      have h2 : min (start + S) (windowStart start W i + W)
          ≤ windowStart start W i + W := min_le_right _ _
      linarith
  · intro t
    constructor
    · rintro ⟨hts, htS⟩
      set u := (t - start) / W with hu
      have hu0 : 0 ≤ u := div_nonneg (by linarith) (le_of_lt hW)
      have huS : u < S / W := by
        rw [hu]
        exact (div_lt_div_right hW).mpr (by linarith)
      refine ⟨(⌊u⌋).toNat, ?_, ?_, ?_⟩
      · have hfz : ((⌊u⌋).toNat : ℤ) = ⌊u⌋ :=
          Int.toNat_of_nonneg (Int.floor_nonneg.mpr hu0)
        have hlt2 : ⌊u⌋ < ⌈S / W⌉ :=
          Int.lt_ceil.mpr (lt_of_le_of_lt (Int.floor_le u) huS)
        have := n_windows_cast S W hS hW
        omega
      · rw [windowStart]
        have hfle : (((⌊u⌋).toNat : ℕ) : ℚ) ≤ u := by
          have h1 : ((⌊u⌋ : ℤ) : ℚ) ≤ u := Int.floor_le u
          have h2 : ((⌊u⌋).toNat : ℤ) = ⌊u⌋ :=
            Int.toNat_of_nonneg (Int.floor_nonneg.mpr hu0)
          rw [← h2] at h1
          exact_mod_cast h1
        have h3 : (((⌊u⌋).toNat : ℕ) : ℚ) * W ≤ t - start := by
          rw [← le_div_iff hW]
          exact hfle
        linarith
      · rw [windowEnd]
        apply lt_min htS
        rw [windowStart]
        have hflt : u < (((⌊u⌋).toNat : ℕ) : ℚ) + 1 := by
          have h1 : u < ((⌊u⌋ : ℤ) : ℚ) + 1 := Int.lt_floor_add_one u
          have h2 : ((⌊u⌋).toNat : ℤ) = ⌊u⌋ :=
            Int.toNat_of_nonneg (Int.floor_nonneg.mpr hu0)
          rw [← h2] at h1
          exact_mod_cast h1
        have h3 : t - start < ((((⌊u⌋).toNat : ℕ) : ℚ) + 1) * W := by
          rw [← div_lt_iff hW]
          exact hflt
        nlinarith
    · rintro ⟨i, hi, hle, hlt2⟩
      constructor
      · have h1 : (0 : ℚ) ≤ (i : ℚ) * W := by positivity
        rw [windowStart] at hle
        linarith
      · have h2 : windowEnd start S W i ≤ start + S := min_le_left _ _
        linarith
  · intro t i j hi hj hi1 hi2 hj1 hj2
    rw [windowStart] at hi1 hj1
    have hi2e : t < start + (i : ℚ) * W + W :=
      lt_of_lt_of_le hi2 (by
        rw [windowEnd, windowStart]
        exact min_le_right _ _)
    have hj2e : t < start + (j : ℚ) * W + W :=
      lt_of_lt_of_le hj2 (by
        rw [windowEnd, windowStart]
        exact min_le_right _ _)
    rcases Nat.lt_trichotomy i j with h | h | h
    · exfalso
      have hij : ((i : ℚ) + 1) ≤ (j : ℚ) := by exact_mod_cast h
      nlinarith
    · exact h
    · exfalso
      have hij : ((j : ℚ) + 1) ≤ (i : ℚ) := by exact_mod_cast h
      nlinarith

/-- Witness for C5: a span of 7 hours with 3-hour windows gives
`ceil(7/3) = 3` windows covering `[0, 7)`. -/
theorem windows_partition_witness :
    ((windows 0 7 3).length : ℤ) = ⌈(7 : ℚ) / 3⌉ ∧
    windowStart 0 3 0 = 0 :=
  ⟨(windows_partition 0 7 3 (by norm_num) (by norm_num)).1,
   (windows_partition 0 7 3 (by norm_num) (by norm_num)).2.1⟩

/-- The channel identifier under which an entry of a combined payload accounts
for its channel: the `"channelId"` of a real entry, or — failing that — the
`"scheduleChannelId"` of a synthesized one. -/
def coveredId (e : JVal) : Option String :=
  match entryChannelIdStr e with
  | some c => some c
  | none =>
      match e with
      | JVal.obj fields =>
          match dictGet fields "scheduleChannelId" with
          | some (JVal.str s) => some s
          | _ => none
      | _ => none

/-- The per-channel payloads a single-channel schedule request produces: no
entries at all, or a single entry carrying the identifier of that channel. -/
def WellShaped (channel_payloads : List (String × Payload)) : Prop :=
  ∀ p ∈ channel_payloads,
    schedules_list p.2 = [] ∨
    ∃ e, schedules_list p.2 = [e] ∧ entryChannelIdStr e = some p.1

theorem length_filter_eq_one_of_nodup {β : Type} [DecidableEq β] :
    ∀ {l : List β} {b : β}, l.Nodup → b ∈ l →
      (l.filter (fun x => x = b)).length = 1 := by
  intro l
  induction l with
  | nil =>
    intro b _ hb
    exact absurd hb (List.not_mem_nil b)
  | cons a l ih =>
    intro b hnd hb
    have hnd2 := List.nodup_cons.mp hnd
    rcases List.mem_cons.mp hb with hba | hbl
    · subst hba
      rw [List.filter_cons_of_pos (by simp)]
      have hnil : l.filter (fun x => x = b) = [] := by
        rw [List.filter_eq_nil]
        intro x hx
        simp only [decide_eq_true_eq]
        intro hxa
        exact hnd2.1 (hxa ▸ hx)
      simp [hnil]
    · have hab : a ≠ b := fun h => hnd2.1 (h ▸ hbl)
      rw [List.filter_cons_of_neg (by simp [hab])]
      exact ih hnd2.2 hbl

theorem combinedSchedules_map_coveredId :
    ∀ channel_payloads : List (String × Payload),
      WellShaped channel_payloads →
      (combinedSchedules channel_payloads).map coveredId
        = channel_payloads.map (fun p => some p.1)
  | [], _ => rfl
  | (cid, p) :: rest, h => by
    have hrest := combinedSchedules_map_coveredId rest
      (fun q hq => h q (List.mem_cons_of_mem _ hq))
    rcases h (cid, p) (List.mem_cons_self _ _) with he | ⟨e, he, hce⟩
    · simp [combinedSchedules, he, hrest, coveredId, synthEntry,
        entryChannelIdStr, dictGet]
    · simp [combinedSchedules, he, hrest, coveredId, hce]

/-- Claim C4: combining the per-channel results of a decomposed batch of `k`
identifiers yields a payload shaped like a multi-channel response whose
schedule list has exactly `k` entries, the `i`-th accounting for the `i`-th
requested identifier (synthesized when that channel returned nothing), so each
originally requested identifier is covered exactly once. -/
theorem fallback_combine_complete (channel_payloads : List (String × Payload))
    (hshape : WellShaped channel_payloads)
    (hnd : (channel_payloads.map Prod.fst).Nodup) :
    (schedules_list (combine_single_channel_payloads channel_payloads)).length
        = channel_payloads.length ∧
    (schedules_list (combine_single_channel_payloads channel_payloads)).map
        coveredId = channel_payloads.map (fun p => some p.1) ∧
    (∀ cid ∈ channel_payloads.map Prod.fst,
      (((schedules_list (combine_single_channel_payloads channel_payloads)).map
        coveredId).filter (fun o => o = some cid)).length = 1) ∧
    ∃ xs, dictGet (combine_single_channel_payloads channel_payloads)
        "schedules" = some (JVal.arr xs) := by
  have hsch : schedules_list (combine_single_channel_payloads channel_payloads)
      = combinedSchedules channel_payloads := rfl
  have hmap := combinedSchedules_map_coveredId channel_payloads hshape
  refine ⟨?_, by rw [hsch, hmap], ?_, ⟨combinedSchedules channel_payloads, rfl⟩⟩
  · have hlen := congrArg List.length hmap
    simpa [hsch] using hlen
  · intro cid hcid
    rw [hsch, hmap]
    have hrw : channel_payloads.map (fun p => some p.1)
        = (channel_payloads.map Prod.fst).map some := by
      simp [List.map_map]
    rw [hrw]
    exact length_filter_eq_one_of_nodup
      (hnd.map (Option.some_injective String))
      (List.mem_map_of_mem some hcid)

/-- Witness for C4: a two-channel batch where channel `a` returned one entry
and channel `b` returned nothing combines into exactly two entries covering
`a` then `b`. -/
theorem fallback_combine_complete_witness :
    (schedules_list (combine_single_channel_payloads
      [("a", [("schedules", JVal.arr [JVal.obj [("channelId", JVal.str "a")]])]),
       ("b", [("schedules", JVal.arr [])])])).length = 2 ∧
    (schedules_list (combine_single_channel_payloads
      [("a", [("schedules", JVal.arr [JVal.obj [("channelId", JVal.str "a")]])]),
       ("b", [("schedules", JVal.arr [])])])).map coveredId
        = [some "a", some "b"] :=
  ⟨(fallback_combine_complete
      [("a", [("schedules", JVal.arr [JVal.obj [("channelId", JVal.str "a")]])]),
       ("b", [("schedules", JVal.arr [])])]
      (by
        intro p hp
        rcases List.mem_cons.mp hp with h | h
        · subst h
          exact Or.inr ⟨JVal.obj [("channelId", JVal.str "a")], rfl, rfl⟩
        · rcases List.mem_cons.mp h with h2 | h2
          · subst h2
            exact Or.inl rfl
          · exact absurd h2 (List.not_mem_nil _))
      (by decide)).1,
   (fallback_combine_complete
      [("a", [("schedules", JVal.arr [JVal.obj [("channelId", JVal.str "a")]])]),
       ("b", [("schedules", JVal.arr [])])]
      (by
        intro p hp
        rcases List.mem_cons.mp hp with h | h
        · subst h
          exact Or.inr ⟨JVal.obj [("channelId", JVal.str "a")], rfl, rfl⟩
        · rcases List.mem_cons.mp h with h2 | h2
          · subst h2
            exact Or.inl rfl
          · exact absurd h2 (List.not_mem_nil _))
      (by decide)).2.1⟩

/-- The per-channel fallback loop (lines 429-449): fetch every channel of the
rejected batch in order; the first failing request raises and aborts the
whole loop. -/
def fetchAll (fetchOne : String → Except ReqErr Payload) :
    List String → Except ReqErr (List (String × Payload))
  | [] => Except.ok []
  | cid :: rest =>
      match fetchOne cid with
      | Except.error e => Except.error e
      | Except.ok p =>
          match fetchAll fetchOne rest with
          | Except.error e => Except.error e
          | Except.ok ps => Except.ok ((cid, p) :: ps)

/-- Resolution of one WorkItem (lines 405-452): fetch the batch, validate, on
rejection fall back to per-channel requests, combine and tag the result.
`fetch` abstracts `_get_json` (with its retries already folded in) for a given
requested channel list. -/
def processItem (fetch : List String → Except ReqErr Payload) (min_ratio : ℚ)
    (batch : List String) : Except ReqErr Payload :=
  match fetch batch with
  | Except.error e => Except.error e
  | Except.ok payload =>
      if validate_multi_channel payload batch min_ratio then Except.ok payload
      else
        match fetchAll (fun cid => fetch [cid]) batch with
        | Except.error e => Except.error e
        | Except.ok cps =>
            Except.ok (dictSet (combine_single_channel_payloads cps)
              "_fallback_single_channel" (JVal.bool true))

/-- The `"_window"` annotation of a resolved payload (lines 454-460); the
serialized window bounds and batch size are abstracted by `wmeta`. -/
def annotate (wmeta : ℕ → ℕ → JVal) (wi : ℕ) (batch : List String)
    (payload : Payload) : Payload :=
  dictSet payload "_window" (wmeta wi batch.length)

/-- The acquisition loop of `main` (lines 391-475) over its work queue, with
the two outputs as explicit state: the JSONL lines written so far, and — only
on full completion — the combined list of payloads.  A failing WorkItem
aborts: nothing further is written and no combined document is produced
(the exception propagates out of `main` past the `json.dump` at line 475). -/
def runDriver (fetch : ℕ → List String → Except ReqErr Payload) (min_ratio : ℚ)
    (wmeta : ℕ → ℕ → JVal) :
    List (ℕ × List String) → List Payload × Option (List Payload)
  | [] => ([], some [])
  | (wi, batch) :: rest =>
      match processItem (fetch wi) min_ratio batch with
      | Except.error _ => ([], none)
      | Except.ok p =>
          let ann := annotate wmeta wi batch p
          let res := runDriver fetch min_ratio wmeta rest
          (ann :: res.1, res.2.map (fun tail => ann :: tail))

/-- The line the driver writes for one WorkItem, when it resolves. -/
def resolveLine (fetch : ℕ → List String → Except ReqErr Payload)
    (min_ratio : ℚ) (wmeta : ℕ → ℕ → JVal) (item : ℕ × List String) :
    Option Payload :=
  (processItem (fetch item.1) min_ratio item.2).toOption.map
    (annotate wmeta item.1 item.2)

/-- Claim C7: if one WorkItem fails permanently (after retries and, where
applicable, after fallback — both folded into `processItem`), the run aborts
with no combined document, and the line-stream holds exactly the resolved
results of the WorkItems before the failure, in order. -/
theorem run_fail_fast (fetch : ℕ → List String → Except ReqErr Payload)
    (min_ratio : ℚ) (wmeta : ℕ → ℕ → JVal)
    (pre : List (ℕ × List String)) (bad : ℕ × List String)
    (post : List (ℕ × List String))
    (hpre : ∀ it ∈ pre, (processItem (fetch it.1) min_ratio it.2).isOk = true)
    (hbad : (processItem (fetch bad.1) min_ratio bad.2).isOk = false) :
    (runDriver fetch min_ratio wmeta (pre ++ bad :: post)).2 = none ∧
    (runDriver fetch min_ratio wmeta (pre ++ bad :: post)).1
        = pre.filterMap (resolveLine fetch min_ratio wmeta) := by
  induction pre with
  | nil =>
    rcases hp : processItem (fetch bad.1) min_ratio bad.2 with e | p
    · simp only [List.nil_append]
      rcases bad with ⟨wi, batch⟩
      simp [runDriver, hp]
    · rw [hp] at hbad
      simp [Except.isOk, Except.toBool] at hbad
  | cons it pre ih =>
    have hit := hpre it (List.mem_cons_self _ _)
    rcases hp : processItem (fetch it.1) min_ratio it.2 with e | p
    · rw [hp] at hit
      simp [Except.isOk, Except.toBool] at hit
    · have ihr := ih (fun q hq => hpre q (List.mem_cons_of_mem _ hq))
      rcases it with ⟨wi, batch⟩
      simp only [List.cons_append, runDriver, hp, List.append_eq]
      rw [ihr.1, ihr.2]
      constructor
      · rfl
      · rw [List.filterMap_cons]
        simp [resolveLine, hp, Except.toOption]

/-- A demo transport for the C7 witness: window 0 resolves (by the
zero-overlap, full-count acceptance), every later window fails permanently. -/
def demoFetch : ℕ → List String → Except ReqErr Payload :=
  fun wi _ =>
    if wi = 0 then
      Except.ok [("schedules", JVal.arr [JVal.obj [("channelId", JVal.str "b")]])]
    else
      Except.error ReqErr.transport

/-- Witness for C7: the first WorkItem resolves, the second fails permanently;
the run yields no combined document and the line-stream holds exactly the
resolved line of the first WorkItem. -/
theorem run_fail_fast_witness :
    (runDriver demoFetch (3 / 4) (fun _ _ => JVal.null)
      ([(0, ["a"])] ++ (1, ["c"]) :: [(2, ["d"])])).2 = none ∧
    (runDriver demoFetch (3 / 4) (fun _ _ => JVal.null)
      ([(0, ["a"])] ++ (1, ["c"]) :: [(2, ["d"])])).1
        = [(0, ["a"])].filterMap
            (resolveLine demoFetch (3 / 4) (fun _ _ => JVal.null)) :=
  run_fail_fast demoFetch (3 / 4) (fun _ _ => JVal.null)
    [(0, ["a"])] (1, ["c"]) [(2, ["d"])]
    (by
      intro it hit
      rcases List.mem_cons.mp hit with h | h
      · subst h
        rfl
      · exact absurd h (List.not_mem_nil it))
    rfl

/-- How a run of `main` ends, as far as configuration handling and network
activity are concerned. -/
inductive RunOutcome : Type where
  | configError : RunOutcome
  | abortNoRequest : RunOutcome
  | successNoRequests : RunOutcome
  | issuesRequests : RunOutcome
deriving DecidableEq, Repr

/-- Modelled from `main` (lines 336-481), the configuration-dependent control
flow up to the first HTTP request:
* an empty channel list returns exit code 2 before any network activity
  (lines 353-355);
* `window_hours = 0` raises `ZeroDivisionError` at `(end - start) / window`
  (line 360), before any request;
* `n_windows = int(math.ceil(24 * days / window_hours)) <= 0` makes
  `range(n_windows)` empty: the loop never runs, no request is issued, the
  empty combined document is written and `main` returns 0;
* otherwise `max_channels = 0` makes `chunked` raise `ValueError`
  (`range` with zero step, line 32) in the first window, before any request;
* a negative `max_channels` makes `range(0, len, step)` empty: every window has
  zero batches, no request is issued, and `main` returns 0;
* otherwise the first batch of the first window issues a request. -/
def mainOutcome (days window_hours max_channels : ℤ)
    (channel_ids : List String) : RunOutcome :=
  if channel_ids = [] then RunOutcome.configError
  else if window_hours = 0 then RunOutcome.abortNoRequest
  else if (⌈((24 * days : ℤ) : ℚ) / ((window_hours : ℤ) : ℚ)⌉).toNat = 0 then
    RunOutcome.successNoRequests
  else if max_channels = 0 then RunOutcome.abortNoRequest
  else if max_channels < 0 then RunOutcome.successNoRequests
  else RunOutcome.issuesRequests

theorem ceil_toNat_eq_zero_of_nonpos {x : ℚ} (h : x ≤ 0) : (⌈x⌉).toNat = 0 := by
  have h1 : ⌈x⌉ ≤ 0 := Int.ceil_le.mpr (by exact_mod_cast h)
  omega

theorem ceil_toNat_ne_zero_of_pos {x : ℚ} (h : 0 < x) : (⌈x⌉).toNat ≠ 0 := by
  have h1 : (0 : ℤ) < ⌈x⌉ := Int.lt_ceil.mpr (by exact_mod_cast h)
  omega

/-- Claim C8 (amended): of the configurations the claim lists, only an empty
channel set is reported as a configuration error (exit 2) before any network
activity.  A zero window size — or a zero batch size once at least one window
exists — aborts with an uncaught exception before any request; a non-positive
span with a non-negative window size, a negative window size with a
non-negative span, or a negative batch size leads to a run that issues no
request yet completes successfully (exit 0, empty combined document).  No
request is ever issued for these configurations — except that a negative span
combined with a negative window size does reach the request loop. -/
theorem main_config_behavior (days window_hours max_channels : ℤ)
    (channel_ids : List String) :
    (channel_ids = [] →
      mainOutcome days window_hours max_channels channel_ids
        = RunOutcome.configError) ∧
    (channel_ids ≠ [] →
      mainOutcome days window_hours max_channels channel_ids
        ≠ RunOutcome.configError) ∧
    (channel_ids ≠ [] → window_hours = 0 →
      mainOutcome days window_hours max_channels channel_ids
        = RunOutcome.abortNoRequest) ∧
    (channel_ids ≠ [] → (days ≤ 0 ∧ 0 < window_hours) ∨
        (0 ≤ days ∧ window_hours < 0) →
      mainOutcome days window_hours max_channels channel_ids
        = RunOutcome.successNoRequests) ∧
    (channel_ids ≠ [] → 0 < days → 0 < window_hours → max_channels = 0 →
      mainOutcome days window_hours max_channels channel_ids
        = RunOutcome.abortNoRequest) ∧
    (channel_ids ≠ [] → 0 < days → 0 < window_hours → max_channels < 0 →
      mainOutcome days window_hours max_channels channel_ids
        = RunOutcome.successNoRequests) ∧
    ((days ≤ 0 ∧ 0 ≤ window_hours) ∨ (0 ≤ days ∧ window_hours ≤ 0) ∨
        max_channels ≤ 0 →
      mainOutcome days window_hours max_channels channel_ids
        ≠ RunOutcome.issuesRequests) ∧
    (channel_ids ≠ [] → days < 0 → window_hours < 0 → 0 < max_channels →
      mainOutcome days window_hours max_channels channel_ids
        = RunOutcome.issuesRequests) := by
  have hposratio : 0 < days → 0 < window_hours →
      (0 : ℚ) < ((24 * days : ℤ) : ℚ) / ((window_hours : ℤ) : ℚ) := by
    intro hd hw
    apply div_pos
    · exact_mod_cast (by omega : (0 : ℤ) < 24 * days)
    · exact_mod_cast hw
  have hnegratio : days < 0 → window_hours < 0 →
      (0 : ℚ) < ((24 * days : ℤ) : ℚ) / ((window_hours : ℤ) : ℚ) := by
    intro hd hw
    apply div_pos_of_neg_of_neg
    · exact_mod_cast (by omega : (24 * days : ℤ) < 0)
    · exact_mod_cast hw
  have hnpratio : (days ≤ 0 ∧ 0 < window_hours) ∨ (0 ≤ days ∧ window_hours < 0) →
      ((24 * days : ℤ) : ℚ) / ((window_hours : ℤ) : ℚ) ≤ 0 := by
    rintro (⟨hd, hw⟩ | ⟨hd, hw⟩)
    · apply div_nonpos_of_nonpos_of_nonneg
      · exact_mod_cast (by omega : (24 * days : ℤ) ≤ 0)
      · exact_mod_cast le_of_lt hw
    · apply div_nonpos_of_nonneg_of_nonpos
      · exact_mod_cast (by omega : (0 : ℤ) ≤ 24 * days)
      · exact_mod_cast le_of_lt hw
  refine ⟨?_, ?_, ?_, ?_, ?_, ?_, ?_, ?_⟩
  · intro h
    unfold mainOutcome
    rw [if_pos h]
  · intro h
    unfold mainOutcome
    split_ifs with h1 h2 h3 h4 h5 <;> simp_all
  · intro h hw
    unfold mainOutcome
    rw [if_neg h, if_pos hw]
  · intro h hcase
    have hw0 : window_hours ≠ 0 := by
      rcases hcase with ⟨_, hw⟩ | ⟨_, hw⟩ <;> omega
    have hz := ceil_toNat_eq_zero_of_nonpos (hnpratio hcase)
    unfold mainOutcome
    rw [if_neg h, if_neg hw0, if_pos hz]
  · intro h hd hw hm
    have hw0 : window_hours ≠ 0 := by omega
    have hnz := ceil_toNat_ne_zero_of_pos (hposratio hd hw)
    unfold mainOutcome
    rw [if_neg h, if_neg hw0, if_neg hnz, if_pos hm]
  · intro h hd hw hm
    have hw0 : window_hours ≠ 0 := by omega
    have hnz := ceil_toNat_ne_zero_of_pos (hposratio hd hw)
    have hm0 : max_channels ≠ 0 := by omega
    unfold mainOutcome
    rw [if_neg h, if_neg hw0, if_neg hnz, if_neg hm0, if_pos hm]
  · intro hcase
    unfold mainOutcome
    split_ifs with h1 h2 h3 h4 h5
    · simp
    · simp
    · simp
    · simp
    · simp
    · exfalso
      rcases hcase with ⟨hd, hw⟩ | ⟨hd, hw⟩ | hm
      · have hw2 : 0 < window_hours :=
          lt_of_le_of_ne hw (fun hh => h2 hh.symm)
        exact h3 (ceil_toNat_eq_zero_of_nonpos (hnpratio (Or.inl ⟨hd, hw2⟩)))
      · have hw2 : window_hours < 0 := lt_of_le_of_ne hw h2
        exact h3 (ceil_toNat_eq_zero_of_nonpos (hnpratio (Or.inr ⟨hd, hw2⟩)))
      · omega
  · intro h hd hw hm
    have hw0 : window_hours ≠ 0 := by omega
    have hnz := ceil_toNat_ne_zero_of_pos (hnegratio hd hw)
    have hm0 : max_channels ≠ 0 := by omega
    have hmneg : ¬ max_channels < 0 := by omega
    unfold mainOutcome
    rw [if_neg h, if_neg hw0, if_neg hnz, if_neg hm0, if_neg hmneg]

/-- Counterexample for C8: a zero span (`days = 0`) with otherwise sane
configuration is not reported as a configuration error — the run issues no
request, writes an empty combined document and exits 0. -/
theorem config_zero_days_counterexample :
    mainOutcome 0 6 40 ["ch1"] = RunOutcome.successNoRequests ∧
    RunOutcome.successNoRequests ≠ RunOutcome.configError := by
  constructor
  · have hz : ((⌈((24 * (0 : ℤ) : ℤ) : ℚ) / (((6 : ℤ) : ℤ) : ℚ)⌉).toNat) = 0 := by
      apply ceil_toNat_eq_zero_of_nonpos
      norm_num
    simp [mainOutcome, hz]
  · decide

/-- Witness for C8 (amended): a zero batch size with one window aborts before
any request. -/
theorem main_config_behavior_witness :
    mainOutcome 3 6 0 ["ch1"] = RunOutcome.abortNoRequest :=
  (main_config_behavior 3 6 0 ["ch1"]).2.2.2.2.1
    (by simp) (by norm_num) (by norm_num) rfl

end DtvSchedule
